import Mathlib

/-!
Verification of the chess-tutor backend's Stockfish mediation layer.

The development shallowly embeds the TypeScript source of the backend
(`src/utils/stockfishManager.ts`, `src/routes/analyze.ts`,
`src/routes/computerMove.ts`, and the legacy monolithic `src/server.ts`):

* JS strings are modelled as `List Char`; `str.split(sep)` becomes `splitOnC`,
  and the per-chunk stdout buffering (`buf += chunk; lines = buf.split("\n");
  buf = lines.pop() || ""`) becomes `feedChunk`.
* The stdout "data" handlers of the two request adapters become pure state
  transformers over the accumulated parse state; promise resolution is
  represented by a `Sum`/`Option` outcome.
* The module-level mutable state of `stockfishManager.ts` (`engineProcess`,
  `isEngineReady`, `stdoutBuffer`, `initializationPromise`) becomes the `Mgr`
  structure, and the asynchronous callbacks (process `error`/`close`, stdout
  data, the 15 s initialization timer) become events of a step function.
* Commands written to the engine's stdin and other side effects are recorded
  as values of the inductive types `Cmd` and `Act`.
* The floating-point arithmetic of `getStockfishMove` (`skillLevel / 20`,
  `Math.round`) is modelled over `ℚ` with Mathlib's `round` (JS `Math.round`
  and Mathlib's `round` both compute `⌊x + 1/2⌋`); on the values the claims
  quantify over, the double-precision computation agrees with the exact one.
-/

/-! ### Characters and literals -/

/-- Character-list form of a string literal. -/
def lit (s : String) : List Char := s.data

/-- Does `s` start with the pattern `p`? (JS `String.prototype.startsWith`.) -/
def startsWithL : List Char → List Char → Bool
  | [], _ => true
  | _ :: _, [] => false
  | p :: ps, c :: cs => p == c && startsWithL ps cs

/-- Does `s` contain the pattern `p` as a contiguous substring?
(JS `String.prototype.includes`.) -/
def hasSub (p : List Char) : List Char → Bool
  | [] => startsWithL p []
  | s@(_ :: cs) => startsWithL p s || hasSub p cs

/-- JS whitespace test used by `String.prototype.trim` (the characters that
occur in engine output). -/
def isWS (c : Char) : Bool := c == ' ' || c == '\t' || c == '\r' || c == '\n'

/-- JS `String.prototype.trim`. -/
def trimL (l : List Char) : List Char :=
  ((l.dropWhile isWS).reverse.dropWhile isWS).reverse

/-! ### Splitting on a separator

`splitOnC sep s` is JS `s.split(sep)` for a one-character separator: it keeps
empty segments and always returns at least one (possibly empty) segment. -/

/-- JS `String.prototype.split` with a single-character separator. -/
def splitOnC (sep : Char) : List Char → List (List Char)
  | [] => [[]]
  | c :: cs =>
      if c == sep then [] :: splitOnC sep cs
      else
        match splitOnC sep cs with
        | [] => [[c]]
        | h :: t => (c :: h) :: t

/-- `split("\n")`, the line framing used by every stdout data handler. -/
def splitNl : List Char → List (List Char) := splitOnC '\n'

theorem splitOnC_ne_nil (sep : Char) (s : List Char) : splitOnC sep s ≠ [] := by
  induction s with
  | nil => simp [splitOnC]
  | cons c cs ih =>
      by_cases h : c == sep
      · simp [splitOnC, h]
      · simp only [splitOnC, h, if_neg]
        cases hs : splitOnC sep cs with
        | nil => simp
        | cons a t => simp

/-- Fuse two split results across a concatenation boundary: the last segment
of the left split merges with the first segment of the right split. -/
def glue : List (List Char) → List (List Char) → List (List Char)
  | [], ys => ys
  | [x], [] => [x]
  | [x], h :: t => (x ++ h) :: t
  | x :: xs₁ :: xs₂, ys => x :: glue (xs₁ :: xs₂) ys

/-- Splitting a concatenation glues the two splits. -/
theorem splitOnC_append (sep : Char) (a b : List Char) :
    splitOnC sep (a ++ b) = glue (splitOnC sep a) (splitOnC sep b) := by
  induction a with
  | nil =>
      cases hb : splitOnC sep b with
      | nil => exact absurd hb (splitOnC_ne_nil sep b)
      | cons h t => simp [splitOnC, glue, hb]
  | cons c cs ih =>
      cases ha : splitOnC sep cs with
      | nil => exact absurd ha (splitOnC_ne_nil sep cs)
      | cons x t =>
          rw [ha] at ih
          by_cases h : c == sep
          · show splitOnC sep (c :: (cs ++ b)) = glue (splitOnC sep (c :: cs)) (splitOnC sep b)
            simp only [splitOnC, h, if_pos, ha, ih]
            simp [glue]
          · show splitOnC sep (c :: (cs ++ b)) = glue (splitOnC sep (c :: cs)) (splitOnC sep b)
            simp only [splitOnC, h, if_neg, ha, ih]
            cases t with
            | nil =>
                cases hb : splitOnC sep b with
                | nil => exact absurd hb (splitOnC_ne_nil sep b)
                | cons h₁ t₁ => simp [glue, hb]
            | cons y u => simp [glue]

theorem glue_ne_nil (xs ys : List (List Char)) (hxs : xs ≠ []) (hys : ys ≠ []) :
    glue xs ys ≠ [] := by
  match xs, ys with
  | [x], [] => simp at hys
  | [x], h :: t => simp [glue]
  | x :: xs₁ :: xs₂, ys => simp [glue]

theorem glue_dropLast (xs : List (List Char)) (h : List Char) (t : List (List Char))
    (hxs : xs ≠ []) :
    (glue xs (h :: t)).dropLast =
      xs.dropLast ++ ((xs.getLastD [] ++ h) :: t).dropLast := by
  match xs with
  | [x] => simp [glue]
  | x :: xs₁ :: xs₂ =>
      have ih := glue_dropLast (xs₁ :: xs₂) h t (by simp)
      have hne : glue (xs₁ :: xs₂) (h :: t) ≠ [] :=
        glue_ne_nil _ _ (by simp) (by simp)
      cases hg : glue (xs₁ :: xs₂) (h :: t) with
      | nil => exact absurd hg hne
      | cons g gs =>
          rw [hg] at ih
          simp only [glue, hg, List.dropLast_cons₂, List.getLastD_cons, ih]
          simp

theorem glue_getLastD (xs : List (List Char)) (h : List Char) (t : List (List Char))
    (hxs : xs ≠ []) :
    (glue xs (h :: t)).getLastD [] = ((xs.getLastD [] ++ h) :: t).getLastD [] := by
  match xs with
  | [x] => simp [glue]
  | x :: xs₁ :: xs₂ =>
      have ih := glue_getLastD (xs₁ :: xs₂) h t (by simp)
      have hne : glue (xs₁ :: xs₂) (h :: t) ≠ [] :=
        glue_ne_nil _ _ (by simp) (by simp)
      cases hg : glue (xs₁ :: xs₂) (h :: t) with
      | nil => exact absurd hg hne
      | cons g gs =>
          rw [hg] at ih
          simp only [glue, hg, List.getLastD_cons] at ih ⊢
          exact ih

/-- No segment produced by a split contains the separator. -/
theorem splitOnC_no_sep (sep : Char) (s : List Char) :
    ∀ x ∈ splitOnC sep s, sep ∉ x := by
  induction s with
  | nil => simp [splitOnC]
  | cons c cs ih =>
      by_cases h : c == sep
      · simp only [splitOnC, h, if_pos]
        intro x hx
        rcases List.mem_cons.mp hx with hx | hx
        · simp [hx]
        · exact ih x hx
      · simp only [splitOnC, h, if_neg]
        cases hs : splitOnC sep cs with
        | nil => exact absurd hs (splitOnC_ne_nil sep cs)
        | cons a t =>
            rw [hs] at ih
            intro x hx
            rcases List.mem_cons.mp hx with hx | hx
            · subst hx
              intro hmem
              rcases List.mem_cons.mp hmem with hmem | hmem
              · subst hmem; simp at h
              · exact ih a (by simp) hmem
            · exact ih x (by simp [hx])

/-- Splitting a separator-free string is the identity. -/
theorem splitOnC_eq_single (sep : Char) (l : List Char) (h : sep ∉ l) :
    splitOnC sep l = [l] := by
  induction l with
  | nil => simp [splitOnC]
  | cons c cs ih =>
      have hc : ¬(c == sep) = true := by
        simp only [beq_iff_eq]
        intro hcs; exact h (by simp [hcs])
      simp only [splitOnC, hc, if_neg]
      rw [ih (fun hm => h (by simp [hm]))]
      simp

/-- The trailing segment of any split is separator-free. -/
theorem getLastD_no_sep (sep : Char) (s : List Char) :
    sep ∉ (splitOnC sep s).getLastD [] := by
  cases hs : splitOnC sep s with
  | nil => exact absurd hs (splitOnC_ne_nil sep s)
  | cons a t =>
      have hmem : (a :: t).getLastD [] ∈ splitOnC sep s := by
        rw [hs, List.getLastD_cons]
        exact List.getLastD_mem_cons t a
      exact splitOnC_no_sep sep s _ hmem

/-! ### The pending-line buffer

Every stdout data handler in the source uses the same framing pattern:

    analysisOutput += data.toString();
    const lines = analysisOutput.split("\n");
    analysisOutput = lines.pop() || "";

`feedChunk buf chunk` returns the complete lines dispatched by one handler
invocation together with the new pending buffer. -/

/-- One data-handler invocation of the line framer. -/
def feedChunk (buf chunk : List Char) : List (List Char) × List Char :=
  let parts := splitNl (buf ++ chunk)
  (parts.dropLast, parts.getLastD [])

/-- Feeding a sequence of chunks, concatenating the dispatched lines. -/
def feedChunks (buf : List Char) : List (List Char) → List (List Char) × List Char
  | [] => ([], buf)
  | c :: cs =>
      let r := feedChunk buf c
      let r2 := feedChunks r.2 cs
      (r.1 ++ r2.1, r2.2)

theorem feedChunk_append (buf a b : List Char) :
    feedChunk buf (a ++ b) =
      ((feedChunk buf a).1 ++ (feedChunk (feedChunk buf a).2 b).1,
        (feedChunk (feedChunk buf a).2 b).2) := by
  have hlast : splitNl ((splitNl (buf ++ a)).getLastD []) =
      [(splitNl (buf ++ a)).getLastD []] :=
    splitOnC_eq_single '\n' _ (getLastD_no_sep '\n' (buf ++ a))
  simp only [feedChunk, splitNl, ← List.append_assoc]
  rw [splitOnC_append '\n' (buf ++ a) b, splitOnC_append '\n' _ b]
  rw [show splitOnC '\n' ((splitOnC '\n' (buf ++ a)).getLastD []) =
      [(splitOnC '\n' (buf ++ a)).getLastD []] from hlast]
  cases hb : splitOnC '\n' b with
  | nil => exact absurd hb (splitOnC_ne_nil '\n' b)
  | cons h t =>
      have hxs : splitOnC '\n' (buf ++ a) ≠ [] := splitOnC_ne_nil '\n' (buf ++ a)
      rw [glue_dropLast _ h t hxs, glue_getLastD _ h t hxs]
      simp [glue]

/-- Chunk-boundary invariance of the framer: starting from a pending buffer
that holds no line terminator (as the buffer invariantly does), feeding the
chunks one at a time dispatches exactly the lines of the concatenated
transcript and leaves the same pending buffer. -/
theorem feedChunks_eq_feedChunk_join (buf : List Char) (hbuf : '\n' ∉ buf)
    (chunks : List (List Char)) :
    feedChunks buf chunks = feedChunk buf chunks.flatten := by
  induction chunks generalizing buf with
  | nil =>
      have h1 : splitNl buf = [buf] := splitOnC_eq_single '\n' buf hbuf
      simp [feedChunks, feedChunk, h1]
  | cons c cs ih =>
      have hbuf' : '\n' ∉ (feedChunk buf c).2 := getLastD_no_sep '\n' (buf ++ c)
      simp [feedChunks, List.flatten, feedChunk_append, ih _ hbuf']

/-! ### Regex-like extraction helpers

The analysis handler of `src/routes/analyze.ts` matches
`/multipv (\d+)/`, `/ pv (.+?)(?= score|$)/`, `/score cp (-?\d+)/` and
`/score mate (-?\d+)/` against each complete line.  The helpers below
implement exactly those searches: scan start positions left to right, and at
the first position where the literal part matches and the rest of the
pattern can complete, produce the capture. -/

/-- Maximal digit run at the head of `l` (the `\d+` tail of a match),
together with its numeric value; `none` if `l` does not start with a digit. -/
def digitRun (l : List Char) : Option Nat :=
  match l.takeWhile Char.isDigit with
  | [] => none
  | ds => some (ds.foldl (fun a c => 10 * a + (c.toNat - '0'.toNat)) 0)

/-- First match of `lit(\d+)`: the numeric capture of the first occurrence of
the literal that is immediately followed by at least one digit. -/
def findLitNat (pat : List Char) : List Char → Option Nat
  | [] => none
  | s@(_ :: cs) =>
      if startsWithL pat s then
        match digitRun (s.drop pat.length) with
        | some n => some n
        | none => findLitNat pat cs
      else findLitNat pat cs

/-- First match of `lit(-?\d+)` (signed integer capture). -/
def findLitInt (pat : List Char) : List Char → Option Int
  | [] => none
  | s@(_ :: cs) =>
      if startsWithL pat s then
        match s.drop pat.length with
        | '-' :: rest =>
            match digitRun rest with
            | some n => some (-(n : Int))
            | none => findLitInt pat cs
        | rest =>
            match digitRun rest with
            | some n => some (n : Int)
            | none => findLitInt pat cs
      else findLitInt pat cs

/-- Lazy extension of the ` pv ` capture: keep taking characters until the
lookahead ` score` matches (or the line ends), mirroring `(.+?)(?= score|$)`. -/
def lazyExt : List Char → List Char
  | [] => []
  | r@(c :: cs) => if startsWithL (lit " score") r then [] else c :: lazyExt cs

/-- Capture of `/ pv (.+?)(?= score|$)/`: at the first occurrence of ` pv `
followed by at least one character, the shortest non-empty run after which
` score` starts, or the whole remainder. -/
def findPvCap : List Char → Option (List Char)
  | [] => none
  | s@(_ :: cs) =>
      if startsWithL (lit " pv ") s then
        match s.drop 4 with
        | [] => findPvCap cs
        | c :: rest => some (c :: lazyExt rest)
      else findPvCap cs

/-- `capture.trim().split(" ")[0]` — the move token of an info line. -/
def firstTok (l : List Char) : List Char := (trimL l).takeWhile (· ≠ ' ')

/-- `line.split(" ")[1]` — the token after `bestmove`, absent when the line
has no second space-separated field (JS `undefined`). -/
def tok1 (l : List Char) : Option String :=
  ((splitOnC ' ' l).get? 1).map fun t => String.mk t

/-! ### The analysis handler (`runStockfishAnalysis` in `src/routes/analyze.ts`) -/

/-- The score recorded for a principal-variation candidate
(`score cp C`, `score mate M`, or the `"N/A"` default). -/
inductive Score where
  | cp (n : Int)
  | mate (n : Int)
  | na
deriving DecidableEq, Repr

/-- One entry of `topMovesInfo`. -/
structure MoveInfo where
  pvIndex : Nat
  move : String
  score : Score
deriving DecidableEq, Repr

/-- `topMovesInfo.findIndex(m => m.pvIndex === pvIndex)` replace-or-push. -/
def recordInfo (info : List MoveInfo) (mi : MoveInfo) : List MoveInfo :=
  match info with
  | [] => [mi]
  | x :: xs => if x.pvIndex = mi.pvIndex then mi :: xs else x :: recordInfo xs mi

/-- Extraction step for a line already known to start with `info depth` and
contain ` multipv ` — the body of the regex-match block. -/
def parseInfoLine (l : List Char) : Option MoveInfo :=
  match findLitNat (lit "multipv ") l, findPvCap l with
  | some pv, some cap =>
      let score :=
        match findLitInt (lit "score cp ") l with
        | some n => Score.cp n
        | none =>
            match findLitInt (lit "score mate ") l with
            | some m => Score.mate m
            | none => Score.na
      some ⟨pv, String.mk (firstTok cap), score⟩
  | _, _ => none

/-- Stable insertion of a candidate into a list sorted by `pvIndex`
(`topMovesInfo.sort((a, b) => a.pvIndex - b.pvIndex)`). -/
def insertByPv (mi : MoveInfo) : List MoveInfo → List MoveInfo
  | [] => [mi]
  | x :: xs => if mi.pvIndex ≤ x.pvIndex then mi :: x :: xs else x :: insertByPv mi xs

/-- The sort applied to `topMovesInfo` before ranking. -/
def sortByPv (info : List MoveInfo) : List MoveInfo := info.foldr insertByPv []

/-- The dedup/cap loop over the sorted candidates: `seenMoves` (first
component) and `uniqueMovesStrings` (second component) exactly as in the
source — a move is pushed, and added to the seen set, only while fewer than
3 moves have been kept. -/
def dedupCapLoop : List MoveInfo → List String × List String → List String × List String
  | [], st => st
  | mi :: rest, (seen, acc) =>
      if ¬ seen.contains mi.move ∧ acc.length < 3 then
        dedupCapLoop rest (seen ++ [mi.move], acc ++ [mi.move])
      else dedupCapLoop rest (seen, acc)

/-- The `bestmove` branch of the analysis data handler: sort, de-duplicate,
cap at 3, and append the bestmove token when it is not `"(none)"`, not in the
seen set, and the cap is not reached.  A missing token (JS `undefined`,
when the line is just `bestmove`) is modelled as `none` and — matching JS
semantics of `bestMove !== "(none)"` and `Set.has(undefined)` — does get
appended when the other conditions hold. -/
def finalizeBestmove (info : List MoveInfo) (bestMove : Option String) :
    List (Option String) :=
  let sorted := sortByPv info
  let st := dedupCapLoop sorted ([], [])
  let seen := st.1
  let uniq := st.2
  if bestMove != some "(none)" &&
      !(match bestMove with | some m => seen.contains m | none => false) &&
      uniq.length < 3 then
    uniq.map some ++ [bestMove]
  else uniq.map some

/-- One complete line fed to the analysis data handler: either an updated
`topMovesInfo`, or the resolved ranked move list on a `bestmove` line. -/
def analysisLine (info : List MoveInfo) (l : List Char) :
    List MoveInfo ⊕ List (Option String) :=
  if l.isEmpty then .inl info
  else if startsWithL (lit "info depth") l ∧ hasSub (lit " multipv ") l then
    .inl (match parseInfoLine l with
          | some mi => recordInfo info mi
          | none => info)
  else if startsWithL (lit "bestmove") l then
    .inr (finalizeBestmove info (tok1 l))
  else .inl info

/-- The handler's loop over the complete lines of one chunk; processing stops
at the line that resolves (the source `return`s out of the loop). -/
def analysisLines (info : List MoveInfo) :
    List (List Char) → List MoveInfo ⊕ List (Option String)
  | [] => .inl info
  | l :: ls =>
      match analysisLine info l with
      | .inl i => analysisLines i ls
      | .inr r => .inr r

/-- Parse state of one in-flight analysis conversation: the pending stdout
buffer (`analysisOutput`) and the recorded candidates (`topMovesInfo`). -/
structure ASt where
  buf : List Char
  info : List MoveInfo
deriving DecidableEq, Repr

/-- One stdout `data` callback of the analysis handler. -/
def analysisChunk (st : ASt) (chunk : List Char) : ASt ⊕ List (Option String) :=
  let fed := feedChunk st.buf chunk
  match analysisLines st.info fed.1 with
  | .inl i => .inl ⟨fed.2, i⟩
  | .inr r => .inr r

/-- Feeding a chunk sequence to the analysis handler; once resolved, the
listener is removed and later chunks are not delivered. -/
def runAnalysisChunks (st : ASt) : List (List Char) → ASt ⊕ List (Option String)
  | [] => .inl st
  | c :: cs =>
      match analysisChunk st c with
      | .inl st' => runAnalysisChunks st' cs
      | .inr r => .inr r

/-- The resolved value of `runStockfishAnalysis` after the given stdout
chunks (`none` while still listening). -/
def analysisResolve (chunks : List String) : Option (List (Option String)) :=
  match runAnalysisChunks ⟨[], []⟩ (chunks.map String.data) with
  | .inl _ => none
  | .inr r => some r

/-! ### The best-move handler (`getStockfishMove` in `src/routes/computerMove.ts`) -/

/-- `move && move !== "(none)" ? move : null`: the resolved value of a
`bestmove` line.  A missing or empty token is falsy in JS. -/
def parseBestTok (tok : Option String) : Option String :=
  match tok with
  | some m => if m ≠ "" ∧ m ≠ "(none)" then some m else none
  | none => none

/-- One complete line fed to the best-move data handler. -/
def bestMoveLine (l : List Char) : Option (Option String) :=
  if startsWithL (lit "bestmove") l then some (parseBestTok (tok1 l)) else none

/-- The best-move handler's loop over the complete lines of one chunk. -/
def bestMoveLines : List (List Char) → Option (Option String)
  | [] => none
  | l :: ls =>
      match bestMoveLine l with
      | some r => some r
      | none => bestMoveLines ls

/-- Feeding a chunk sequence to the best-move handler: pending buffer in, and
either the resolved move (`some`) or the new buffer. -/
def runBestMoveChunks (buf : List Char) : List (List Char) → List Char ⊕ Option String
  | [] => .inl buf
  | c :: cs =>
      let fed := feedChunk buf c
      match bestMoveLines fed.1 with
      | some r => .inr r
      | none => runBestMoveChunks fed.2 cs

/-- The resolved value of `getStockfishMove` after the given stdout chunks. -/
def bestMoveResolve (chunks : List String) : Option (Option String) :=
  match runBestMoveChunks [] (chunks.map String.data) with
  | .inl _ => none
  | .inr r => some r

/-! ### Commands and side effects

Commands written to the engine's stdin are `cmd + "\n"` template strings in
the source; they are modelled structurally. -/

/-- An engine command (`sendCommand` argument). -/
inductive Cmd where
  | uci
  | isready
  | ucinewgame
  | stop
  | quit
  | positionFen (fen : String)
  | setMultiPV (n : Nat)
  | setSkill (q : ℚ)
  | goDepth (n : Nat)
  | goMovetime (t : ℤ)
deriving DecidableEq

/-- An observable side effect of the mediation layer.  `acquireBroker` /
`releaseBroker` and `rejectActiveTicket` are in the vocabulary so that their
absence from the source's traces is expressible; the source never emits
them. -/
inductive Act where
  | attachStdoutListener
  | removeStdoutListener
  | send (c : Cmd)
  | acquireBroker
  | releaseBroker
  | spawnProc
  | killProc
  | rejectActiveTicket
deriving DecidableEq

/-! ### Best-move time budget (`src/routes/computerMove.ts`) -/

/-- `MIN_SKILL_LEVEL`. -/
def MIN_SKILL_LEVEL : ℚ := 0

/-- `MAX_SKILL_LEVEL`. -/
def MAX_SKILL_LEVEL : ℚ := 20

/-- `BASE_MOVE_TIME_MS`. -/
def BASE_MOVE_TIME_MS : ℤ := 100

/-- `MAX_ADDITIONAL_TIME_MS`. -/
def MAX_ADDITIONAL_TIME_MS : ℚ := 1000

/-- `Math.max(0, Math.min(1, skillLevel / MAX_SKILL_LEVEL))`. -/
def normalizedSkill (skillLevel : ℚ) : ℚ :=
  max 0 (min 1 (skillLevel / MAX_SKILL_LEVEL))

/-- `BASE_MOVE_TIME_MS + Math.round(normalizedSkill * MAX_ADDITIONAL_TIME_MS)`. -/
def moveTime (skillLevel : ℚ) : ℤ :=
  BASE_MOVE_TIME_MS + round (normalizedSkill skillLevel * MAX_ADDITIONAL_TIME_MS)

/-- `const moveTimeout = moveTime + 7000` — the per-request timeout. -/
def moveTimeout (skillLevel : ℚ) : ℤ := moveTime skillLevel + 7000

/-- `ANALYSIS_DEPTH` of `src/routes/analyze.ts`. -/
def ANALYSIS_DEPTH : Nat := 5

/-- `ANALYSIS_TIMEOUT_MS` of `src/routes/analyze.ts`. -/
def ANALYSIS_TIMEOUT_MS : Nat := 30000

/-! ### Request-adapter traces

After the readiness guard, each adapter attaches its own `data` listener to
the shared process stdout and then writes its command sequence through
`stockfishManager.sendCommand` — there is no broker in the source. -/

/-- The effects of `runStockfishAnalysis` up to its first suspension. -/
def runStockfishAnalysisStart (fen : String) : List Act :=
  [ .attachStdoutListener,
    .send .ucinewgame,
    .send (.positionFen fen),
    .send (.setMultiPV 3),
    .send (.goDepth ANALYSIS_DEPTH) ]

/-- The effects of `getStockfishMove` up to its first suspension. -/
def getStockfishMoveStart (fen : String) (skillLevel : ℚ) : List Act :=
  [ .attachStdoutListener,
    .send (.positionFen fen),
    .send (.setSkill skillLevel),
    .send (.goMovetime (moveTime skillLevel)) ]

/-! ### Request lifecycle with timeout

The timer callback of each adapter runs `cleanup()` (clear timer, remove its
stdout listener), sends `stop`, and rejects its own promise; nothing else in
the process is touched. -/

/-- Error vocabulary of a request. -/
inductive ReqErr where
  | engineTimeout
deriving DecidableEq, Repr

/-- An event delivered to one in-flight analysis request. -/
inductive ReqEv where
  | data (chunk : List Char)
  | timeoutFire

/-- One event step of an in-flight analysis request: `.inl` is the
still-listening parse state, `.inr` the settled outcome. -/
def analysisReqStep (s : ASt ⊕ Except ReqErr (List (Option String))) (ev : ReqEv) :
    (ASt ⊕ Except ReqErr (List (Option String))) × List Act :=
  match s, ev with
  | .inl st, .data c =>
      match analysisChunk st c with
      | .inl st' => (.inl st', [])
      | .inr r => (.inr (.ok r), [.removeStdoutListener])
  | .inl _, .timeoutFire =>
      (.inr (.error .engineTimeout), [.removeStdoutListener, .send .stop])
  | .inr r, _ => (.inr r, [])

/-- The timer callback of one request leaves every other concurrent request's
state untouched: it only clears its own timer, removes its own listener, and
rejects its own promise. -/
def pairTimeoutFirst {β : Type} (a : ASt ⊕ Except ReqErr (List (Option String)))
    (b : β) : (ASt ⊕ Except ReqErr (List (Option String))) × β :=
  ((analysisReqStep a .timeoutFire).1, b)

/-! ### The lifecycle manager (`src/utils/stockfishManager.ts`)

Module-level mutable state: `engineProcess`, `isEngineReady`, `stdoutBuffer`,
`initializationPromise` (with its `resolveInitialization` /
`rejectInitialization` settlement functions).  `initSt` tracks the
settlement state of the most recently created initialization promise;
`initVar` tracks whether the module-level `initializationPromise` variable
still references it.  The settlement functions are non-null exactly while
the promise is pending. -/

/-- Initialization/crash error vocabulary (the distinct `Error` values the
manager rejects with). -/
inductive EngErr where
  | spawnErr
  | stdinErr
  | stdinClosed
  | exitedEarly
  | initTimedOut
  | isreadySendFail
deriving DecidableEq, Repr

/-- Settlement state of the initialization promise. -/
inductive PromiseSt where
  | pending
  | resolvedOk
  | rejectedErr (e : EngErr)
deriving DecidableEq, Repr

/-- The manager's module-level state. -/
structure Mgr where
  proc : Bool
  killed : Bool
  ready : Bool
  buf : List Char
  initVar : Bool
  initSt : PromiseSt
deriving DecidableEq, Repr

/-- `INITIALIZATION_TIMEOUT_MS`. -/
def INITIALIZATION_TIMEOUT_MS : Nat := 15000

/-- `sendCommand` of the manager: write iff the process exists, its stdin is
writable, and it has not been killed (`stdin` writability is tied to process
liveness in the model). -/
def sendCommandOk (m : Mgr) : Bool := m.proc && !m.killed

/-- `isReady()`: `!!engineProcess && isEngineReady`. -/
def isReadyM (m : Mgr) : Bool := m.proc && m.ready

/-- How an `initialize()` call returns. -/
inductive InitRes where
  | sharedInFlight
  | immediateOk
  | started
deriving DecidableEq, Repr

/-- `initializeStockfish()`: return the existing promise if one is recorded;
return an immediately resolved promise when the engine is up and ready;
otherwise kill any stale process, reset state, spawn, send `uci`, and arm
the 15 s timer. -/
def initializeStockfishM (m : Mgr) : Mgr × InitRes × List Act :=
  if m.initVar then (m, .sharedInFlight, [])
  else if m.proc && m.ready then (m, .immediateOk, [])
  else
    let killActs : List Act := if m.proc then [.killProc] else []
    (⟨true, false, false, [], true, .pending⟩, .started, killActs ++ [.spawnProc, .send .uci])

/-- Asynchronous events delivered to the manager. -/
inductive MgrEv where
  | data (chunk : List Char)
  | procError
  | procClose
  | initTimeoutFire
  | stdinError
  | stdinClose

/-- One trimmed, non-empty stdout line of the manager's own listener:
`uciok` sends `isready` (rejecting the pending promise if the send fails),
`readyok` sets `isEngineReady` and resolves the pending promise. -/
def initLineStep (p : Mgr × List Act) (l : List Char) : Mgr × List Act :=
  let m := p.1
  let acc := p.2
  let t := trimL l
  if t.isEmpty then (m, acc)
  else if t = lit "uciok" then
    if sendCommandOk m then (m, acc ++ [.send .isready])
    else if m.initSt = .pending then
      ({ m with initSt := .rejectedErr .isreadySendFail }, acc)
    else (m, acc)
  else if t = lit "readyok" then
    let m₁ := { m with ready := true }
    if m₁.initSt = .pending then ({ m₁ with initSt := .resolvedOk }, acc) else (m₁, acc)
  else (m, acc)

/-- The manager's stdout `data` listener: frame lines out of `stdoutBuffer`
and process each. -/
def mgrData (m : Mgr) (chunk : List Char) : Mgr × List Act :=
  let fed := feedChunk m.buf chunk
  fed.1.foldl initLineStep ({ m with buf := fed.2 }, [])

/-- One asynchronous event step of the manager. -/
def mgrStep (m : Mgr) : MgrEv → Mgr × List Act
  | .data chunk => mgrData m chunk
  | .procError =>
      let m₁ := if m.initSt = .pending then { m with initSt := .rejectedErr .spawnErr } else m
      ({ m₁ with proc := false, ready := false, initVar := false }, [])
  | .procClose =>
      let m₁ :=
        if ¬ m.ready ∧ m.initSt = .pending then
          { m with initSt := .rejectedErr .exitedEarly }
        else m
      ({ m₁ with proc := false, ready := false, initVar := false }, [])
  | .initTimeoutFire =>
      if ¬ m.ready ∧ m.initSt = .pending then
        let m₁ := { m with initSt := PromiseSt.rejectedErr .initTimedOut }
        ({ m₁ with proc := false, ready := false, initVar := false, killed := true },
          if m.proc && !m.killed then [.killProc] else [])
      else (m, [])
  | .stdinError =>
      let m₁ := if m.initSt = .pending then { m with initSt := .rejectedErr .stdinErr } else m
      ({ m₁ with proc := false, ready := false, initVar := false, killed := true },
        if m.proc then [.killProc] else [])
  | .stdinClose =>
      (if ¬ m.ready ∧ m.initSt = .pending then
          { m with initSt := .rejectedErr .stdinClosed }
        else m, [])

/-- Run a sequence of manager events. -/
def mgrRun (m : Mgr) : List MgrEv → Mgr
  | [] => m
  | ev :: evs => mgrRun (mgrStep m ev).1 evs

/-- The crash handlers (`error`/`close`) touch only the manager's own module
variables; the parse state and pending promise of an in-flight request are
not inputs or outputs of those handlers. -/
def systemCrashStep (m : Mgr) (req : ASt ⊕ Except ReqErr (List (Option String))) :
    (Mgr × List Act) × (ASt ⊕ Except ReqErr (List (Option String))) :=
  (mgrStep m .procClose, req)

/-! ### The legacy monolithic server (old `src/server.ts`)

Its `sendCommand` re-initializes the engine when called with no process
handle; `initializeStockfish` there spawns and writes `uci`. -/

/-- Legacy `sendCommand`: write when stdin is writable; otherwise, if the
process handle is gone, call `initializeStockfish()` (which spawns a fresh
engine and sends `uci`). -/
def legacySendCommand (procPresent writable : Bool) (c : Cmd) : List Act :=
  if procPresent && writable then [.send c]
  else if !procPresent then [.spawnProc, .send .uci]
  else []

/-! ### Shutdown (`shutdownStockfish` in `src/utils/stockfishManager.ts`) -/

/-- `SHUTDOWN_GRACE_MS` — the `killTimeout` delay. -/
def SHUTDOWN_GRACE_MS : Nat := 2000

/-- `shutdownStockfish()` up to its first suspension: when a live, unkilled
process exists, remove the stdout/stderr listeners and send `quit`, without
resolving yet; otherwise resolve immediately with no engine interaction.
The final component is `true` iff the returned promise is already
resolved. -/
def shutdownStockfishM (m : Mgr) : Mgr × List Act × Bool :=
  if m.proc && !m.killed then (m, [.removeStdoutListener, .send .quit], false)
  else (m, [], true)

/-- The `close` event during shutdown: null the module state and resolve. -/
def shutdownOnClose (m : Mgr) : Mgr × Bool :=
  ({ m with proc := false, ready := false, initVar := false }, true)

/-- The `killTimeout` callback: if the process has not exited within the
grace period, `SIGKILL` it, null the module state, and resolve. -/
def shutdownOnGrace (m : Mgr) : Mgr × List Act × Bool :=
  if !m.killed then
    ({ m with killed := true, proc := false, ready := false, initVar := false },
      [.killProc], true)
  else (m, [], false)

/-! ### Ranking as the specification words it

The spec describes the `bestmove` branch as: sort by principal-variation
index ascending, de-duplicate by move keeping the first-seen rank, cap at 3,
then conditionally append the bestmove token.  `rankedMovesSpec` is that
composition; `rankedMovesClaimed` is the same composition with the claim's
literal `none` as the no-move marker (the source compares against
`"(none)"`). -/

/-- De-duplication keeping first occurrences, folding from an accumulator. -/
def dkfAcc (acc : List String) (moves : List String) : List String :=
  moves.foldl (fun a mv => if a.contains mv then a else a ++ [mv]) acc

/-- De-duplicate a move list keeping the first occurrence of each move. -/
def dedupKeepFirst (moves : List String) : List String := dkfAcc [] moves

/-- The specification's composition for the resolved move list, with the
source's `"(none)"` no-move marker. -/
def rankedMovesSpec (info : List MoveInfo) (bestMove : Option String) :
    List (Option String) :=
  let base := (dedupKeepFirst ((sortByPv info).map (·.move))).take 3
  if bestMove != some "(none)" &&
      !(match bestMove with | some m => base.contains m | none => false) &&
      base.length < 3 then
    base.map some ++ [bestMove]
  else base.map some

/-- The claim's composition verbatim: the no-move marker is the literal
`none`. -/
def rankedMovesClaimed (info : List MoveInfo) (bestMove : Option String) :
    List (Option String) :=
  let base := (dedupKeepFirst ((sortByPv info).map (·.move))).take 3
  if bestMove != some "none" &&
      !(match bestMove with | some m => base.contains m | none => false) &&
      base.length < 3 then
    base.map some ++ [bestMove]
  else base.map some

theorem dkfAcc_extends (moves : List String) (acc : List String) :
    ∃ e, dkfAcc acc moves = acc ++ e := by
  induction moves generalizing acc with
  | nil => exact ⟨[], by simp [dkfAcc]⟩
  | cons m ms ih =>
      show ∃ e, dkfAcc (if acc.contains m then acc else acc ++ [m]) ms = acc ++ e
      by_cases h : acc.contains m
      · rw [if_pos h]; exact ih acc
      · rw [if_neg h]
        obtain ⟨e, he⟩ := ih (acc ++ [m])
        exact ⟨m :: e, by rw [he]; simp⟩

theorem dedupCapLoop_full (l : List MoveInfo) (seen acc : List String)
    (h : 3 ≤ acc.length) : dedupCapLoop l (seen, acc) = (seen, acc) := by
  induction l with
  | nil => simp [dedupCapLoop]
  | cons mi rest ih =>
      have hskip : ¬ (¬ seen.contains mi.move = true ∧ acc.length < 3) := by
        rintro ⟨-, hlt⟩; omega
      show (if ¬ seen.contains mi.move = true ∧ acc.length < 3 then
          dedupCapLoop rest (seen ++ [mi.move], acc ++ [mi.move])
        else dedupCapLoop rest (seen, acc)) = (seen, acc)
      rw [if_neg hskip]; exact ih

theorem dedupCapLoop_eq_take (l : List MoveInfo) (acc : List String)
    (h : acc.length ≤ 3) :
    dedupCapLoop l (acc, acc) =
      ((dkfAcc acc (l.map (·.move))).take 3, (dkfAcc acc (l.map (·.move))).take 3) := by
  induction l generalizing acc with
  | nil => simp [dedupCapLoop, dkfAcc, List.take_of_length_le h]
  | cons mi rest ih =>
      show (if ¬ acc.contains mi.move = true ∧ acc.length < 3 then
          dedupCapLoop rest (acc ++ [mi.move], acc ++ [mi.move])
        else dedupCapLoop rest (acc, acc)) = _
      have hfold : dkfAcc acc ((mi :: rest).map (·.move)) =
          dkfAcc (if acc.contains mi.move then acc else acc ++ [mi.move])
            (rest.map (·.move)) := rfl
      by_cases hc : acc.contains mi.move
      · have hskip : ¬ (¬ acc.contains mi.move = true ∧ acc.length < 3) := by
          rintro ⟨hn, -⟩; exact hn hc
        rw [if_neg hskip, ih acc h, hfold, if_pos hc]
      · by_cases hlen : acc.length < 3
        · have hpush : ¬ acc.contains mi.move = true ∧ acc.length < 3 := ⟨hc, hlen⟩
          have h' : (acc ++ [mi.move]).length ≤ 3 := by simp; omega
          rw [if_pos hpush, ih (acc ++ [mi.move]) h', hfold, if_neg hc]
        · have hskip : ¬ (¬ acc.contains mi.move = true ∧ acc.length < 3) := by
            rintro ⟨-, hlt⟩; exact hlen hlt
          have hfull : acc.length = 3 := by omega
          obtain ⟨e₁, he₁⟩ := dkfAcc_extends (rest.map (·.move)) (acc ++ [mi.move])
          obtain ⟨e₂, he₂⟩ := dkfAcc_extends (rest.map (·.move)) acc
          have htake : (dkfAcc (acc ++ [mi.move]) (rest.map (·.move))).take 3 =
              (dkfAcc acc (rest.map (·.move))).take 3 := by
            rw [he₁, he₂, List.take_append_eq_append_take, List.take_append_eq_append_take]
            simp [hfull, List.take_of_length_le (le_of_eq hfull)]
          rw [if_neg hskip, ih acc h, hfold, if_neg hc, htake]

/-- The source's dedup/cap loop computes exactly the specification's
"de-duplicate keeping first-seen rank, cap at 3", and its seen set equals
the kept list. -/
theorem dedupCapLoop_spec (l : List MoveInfo) :
    dedupCapLoop l ([], []) =
      ((dedupKeepFirst (l.map (·.move))).take 3,
        (dedupKeepFirst (l.map (·.move))).take 3) :=
  dedupCapLoop_eq_take l [] (by simp)

/-- The `bestmove` branch of the analysis handler equals the spec-worded
composition (with the source's `"(none)"` marker). -/
theorem finalizeBestmove_eq_spec (info : List MoveInfo) (bestMove : Option String) :
    finalizeBestmove info bestMove = rankedMovesSpec info bestMove := by
  simp only [finalizeBestmove, rankedMovesSpec, dedupCapLoop_spec]

/-! ### Composing chunk feeds of the analysis handler -/

theorem analysisLines_append (i : List MoveInfo) (l₁ l₂ : List (List Char)) :
    analysisLines i (l₁ ++ l₂) =
      match analysisLines i l₁ with
      | .inl i' => analysisLines i' l₂
      | .inr r => .inr r := by
  induction l₁ generalizing i with
  | nil => simp [analysisLines]
  | cons l ls ih =>
      simp only [List.cons_append, analysisLines]
      cases h : analysisLine i l with
      | inl i' => simp [ih]
      | inr r => simp

theorem analysisChunk_append (st : ASt) (a b : List Char) :
    analysisChunk st (a ++ b) =
      match analysisChunk st a with
      | .inl st' => analysisChunk st' b
      | .inr r => .inr r := by
  simp only [analysisChunk, feedChunk_append st.buf a b, analysisLines_append]
  cases h : analysisLines st.info (feedChunk st.buf a).1 with
  | inl i' => simp [analysisChunk]
  | inr r => simp

/-- Chunk-boundary invariance lifted to the analysis handler: processing the
chunks one at a time gives the same parse state or resolved value as
processing the concatenated transcript in one piece. -/
theorem runAnalysisChunks_join (cs : List (List Char)) (st : ASt) (hbuf : '\n' ∉ st.buf) :
    runAnalysisChunks st cs = runAnalysisChunks st [cs.flatten] := by
  induction cs generalizing st with
  | nil =>
      obtain ⟨b, i⟩ := st
      have h1 : splitNl b = [b] := splitOnC_eq_single '\n' b hbuf
      simp [runAnalysisChunks, analysisChunk, feedChunk, h1, analysisLines]
  | cons c cs' ih =>
      have hbuf' : '\n' ∉ (feedChunk st.buf c).2 := getLastD_no_sep '\n' (st.buf ++ c)
      simp only [List.flatten_cons, runAnalysisChunks, analysisChunk_append st c cs'.flatten]
      cases h : analysisChunk st c with
      | inl st' =>
          have hbuf'' : '\n' ∉ st'.buf := by
            have : st'.buf = (feedChunk st.buf c).2 := by
              simp only [analysisChunk] at h
              cases h2 : analysisLines st.info (feedChunk st.buf c).1 with
              | inl i' => rw [h2] at h; cases h; rfl
              | inr r => rw [h2] at h; cases h
            rw [this]; exact hbuf'
          dsimp only
          rw [ih st' hbuf'']
          simp only [runAnalysisChunks]
      | inr r => simp

/-! ### The best-move handler's resolution shape -/

theorem bestMoveLines_eq_find (ls : List (List Char)) :
    bestMoveLines ls =
      (ls.find? fun l => startsWithL (lit "bestmove") l).map
        fun l => parseBestTok (tok1 l) := by
  induction ls with
  | nil => simp [bestMoveLines]
  | cons l ls ih =>
      by_cases h : startsWithL (lit "bestmove") l
      · simp [bestMoveLines, bestMoveLine, h, List.find?_cons_of_pos]
      · simp [bestMoveLines, bestMoveLine, h, List.find?_cons_of_neg, ih]

theorem parseBestTok_eq_none_iff (t : Option String) :
    parseBestTok t = none ↔ t = none ∨ t = some "" ∨ t = some "(none)" := by
  cases t with
  | none => simp [parseBestTok]
  | some m =>
      by_cases h1 : m = ""
      · simp [parseBestTok, h1]
      · by_cases h2 : m = "(none)"
        · simp [parseBestTok, h1, h2]
        · simp [parseBestTok, h1, h2]

/-! ### Distinguished manager states -/

/-- `NotStarted`: the module as loaded. -/
def mgrFresh : Mgr := ⟨false, false, false, [], false, .pending⟩

/-- `Handshaking`: just after `initialize()` spawned the engine. -/
def mgrStarted : Mgr := ⟨true, false, false, [], true, .pending⟩

/-- `Ready`: the handshake finished (the settled initialization promise is
still referenced by the module variable — the success path never clears it). -/
def mgrReady : Mgr := ⟨true, false, true, [], true, .resolvedOk⟩

/-- A ready engine whose initialization promise variable was cleared. -/
def mgrReadyNoVar : Mgr := ⟨true, false, true, [], false, .resolvedOk⟩

/-- `Crashed`: the state after a process `close` event in `mgrReady`. -/
def mgrCrashed : Mgr := (mgrStep mgrReady .procClose).1

/-- Discriminator for stdout-data events. -/
def MgrEv.isData : MgrEv → Bool
  | .data _ => true
  | _ => false

/-! ### Resolution of the initialization promise happens only on `readyok` -/

theorem initLineStep_resolved (p : Mgr × List Act) (l : List Char)
    (hl : trimL l ≠ lit "readyok") :
    (initLineStep p l).1.initSt = .resolvedOk → p.1.initSt = .resolvedOk := by
  intro h
  simp only [initLineStep] at h
  split_ifs at h
  all_goals first | exact h | simp_all

theorem foldl_initLineStep_resolved (lines : List (List Char)) (p : Mgr × List Act)
    (hl : ∀ l ∈ lines, trimL l ≠ lit "readyok") :
    (lines.foldl initLineStep p).1.initSt = .resolvedOk → p.1.initSt = .resolvedOk := by
  induction lines generalizing p with
  | nil => exact fun h => h
  | cons l ls ih =>
      intro h
      exact initLineStep_resolved p l (hl l (by simp))
        (ih (initLineStep p l) (fun x hx => hl x (by simp [hx])) h)

set_option maxRecDepth 4000

/-! ### Claim theorems -/

/-- C1 (code_bug evidence): the source has no Session Broker.  Neither
request adapter performs any broker acquire/release around its command
writes — each attaches its own `data` listener directly to the shared
engine stdout — so when two requests are in flight concurrently, one
engine line (`bestmove e2e4`) is delivered to both listeners and resolves
both conversations: their conversations with the shared stdout overlap,
contradicting the claimed mutual exclusion. -/
theorem per_request_listeners_C1 :
    (∀ fen : String,
        Act.acquireBroker ∉ runStockfishAnalysisStart fen ∧
        Act.releaseBroker ∉ runStockfishAnalysisStart fen) ∧
    (∀ (fen : String) (skill : ℚ),
        Act.acquireBroker ∉ getStockfishMoveStart fen skill ∧
        Act.releaseBroker ∉ getStockfishMoveStart fen skill) ∧
    analysisResolve ["bestmove e2e4\n"] = some [some "e2e4"] ∧
    bestMoveResolve ["bestmove e2e4\n"] = some (some "e2e4") := by
  refine ⟨fun fen => ⟨?_, ?_⟩, fun fen skill => ⟨?_, ?_⟩, by decide, by decide⟩ <;>
    simp [runStockfishAnalysisStart, getStockfishMoveStart]

/-- C2 (amended): when the analysis handler receives a `bestmove` line it
resolves with the recorded multipv candidates sorted by principal-variation
index ascending, de-duplicated by move keeping the first-seen rank, capped
at 3, appending the bestmove token only if it is not the engine's `"(none)"`
marker, not already present, and the cap is not reached; for multipv lines
1→e2e4, 2→e2e4, 3→d2d4 followed by `bestmove e2e4`, the resolved move list
is exactly ["e2e4", "d2d4"]. -/
theorem analysis_ranking_C2 :
    (∀ (info : List MoveInfo) (bestMove : Option String),
        finalizeBestmove info bestMove = rankedMovesSpec info bestMove) ∧
    analysisResolve
        ["info depth 5 seldepth 5 multipv 1 score cp 30 pv e2e4 e7e5\ninfo depth 5 seldepth 5 multipv 2 score cp 30 pv e2e4 d7d5\ninfo depth 5 seldepth 5 multipv 3 score cp 10 pv d2d4 d7d5\nbestmove e2e4 ponder e7e5\n"] =
      some [some "e2e4", some "d2d4"] :=
  ⟨finalizeBestmove_eq_spec, by decide⟩

/-- C2 counterexample: the claim reads the no-move marker as the literal
`none`, but the source compares the bestmove token against `"(none)"`.  On
the transcript `bestmove none` the handler appends the token `"none"` and
resolves `["none"]`, while the claim's composition (with the literal `none`
excluded) resolves the empty list. -/
theorem analysis_ranking_C2_counterexample :
    analysisResolve ["bestmove none\n"] = some [some "none"] ∧
    finalizeBestmove [] (some "none") = [some "none"] ∧
    rankedMovesClaimed [] (some "none") = [] ∧
    finalizeBestmove [] (some "none") ≠ rankedMovesClaimed [] (some "none") := by
  refine ⟨by decide, by decide, by decide, by decide⟩

/-- C3: for every engine stdout transcript and every partition of it into
chunks, feeding the chunks one at a time to the line parser dispatches
exactly the same complete lines (and leaves the same pending buffer) as
feeding the whole transcript as a single chunk, and hence the analysis
handler computes the identical parse state or resolved result. -/
theorem chunk_invariance_C3 (transcript : List Char) (chunks : List (List Char))
    (h : chunks.flatten = transcript) :
    feedChunks [] chunks = feedChunk [] transcript ∧
    runAnalysisChunks ⟨[], []⟩ chunks = runAnalysisChunks ⟨[], []⟩ [transcript] := by
  subst h
  exact ⟨feedChunks_eq_feedChunk_join [] (by simp) chunks,
    runAnalysisChunks_join chunks ⟨[], []⟩ (by simp)⟩

/-- C3 witness: a transcript cut in the middle of a line and in the middle
of the `bestmove` keyword parses identically to the single-chunk feed. -/
theorem chunk_invariance_C3_witness :
    ([lit "info depth 5 multipv 1 score cp 3 pv e2", lit "e4 e7e5\nbest",
        lit "move e2e4\n"].flatten =
      lit "info depth 5 multipv 1 score cp 3 pv e2e4 e7e5\nbestmove e2e4\n") ∧
    (feedChunks [] [lit "info depth 5 multipv 1 score cp 3 pv e2", lit "e4 e7e5\nbest",
        lit "move e2e4\n"] =
      feedChunk [] (lit "info depth 5 multipv 1 score cp 3 pv e2e4 e7e5\nbestmove e2e4\n") ∧
      runAnalysisChunks ⟨[], []⟩
          [lit "info depth 5 multipv 1 score cp 3 pv e2", lit "e4 e7e5\nbest",
            lit "move e2e4\n"] =
        runAnalysisChunks ⟨[], []⟩
          [lit "info depth 5 multipv 1 score cp 3 pv e2e4 e7e5\nbestmove e2e4\n"]) :=
  ⟨by decide, chunk_invariance_C3 _ _ (by decide)⟩

/-- C4 counterexample: a process `close` event while an analysis request is
active produces no request-rejection effect (the request's pending state is
untouched), and the legacy server's `sendCommand`, invoked after the handle
is gone (e.g. by the request's own later timeout sending `stop`), calls
`initializeStockfish()` — a respawn attempt. -/
theorem crash_handling_C4_counterexample :
    (systemCrashStep mgrReady (.inl ⟨[], []⟩)).2 = .inl ⟨[], []⟩ ∧
    Act.rejectActiveTicket ∉ (mgrStep mgrReady .procClose).2 ∧
    Act.spawnProc ∈ legacySendCommand false false .stop := by
  refine ⟨rfl, by decide, by decide⟩

/-- C4 (amended): a process `exit`/`error` event discards the handle, clears
readiness and the promise variable, rejects a pending initialization, and
makes `isReady()` false so new work is refused; the crash handler itself
attempts no respawn and emits no effect at all — in particular it does not
reject the active or queued request promises, which are untouched — while
the legacy server's `sendCommand` does attempt re-initialization when the
handle is gone; a fresh `initializeStockfish()` on the crashed state starts
a new handshake. -/
theorem crash_handling_C4 :
    (∀ m : Mgr, (mgrStep m .procClose).1.proc = false ∧
        (mgrStep m .procClose).1.ready = false ∧
        (mgrStep m .procClose).1.initVar = false ∧
        (mgrStep m .procClose).2 = [] ∧
        isReadyM (mgrStep m .procClose).1 = false) ∧
    (∀ m : Mgr, (mgrStep m .procError).1.proc = false ∧
        (mgrStep m .procError).1.ready = false ∧
        (mgrStep m .procError).1.initVar = false ∧
        (mgrStep m .procError).2 = []) ∧
    (∀ (m : Mgr) (req : ASt ⊕ Except ReqErr (List (Option String))),
        (systemCrashStep m req).2 = req) ∧
    (mgrStep mgrStarted .procClose).1.initSt = .rejectedErr .exitedEarly ∧
    Act.spawnProc ∈ legacySendCommand false false .stop ∧
    (initializeStockfishM mgrCrashed).2.1 = .started := by
  refine ⟨?_, ?_, fun m req => rfl, by decide, by decide, by decide⟩ <;>
    · intro m
      simp [mgrStep, isReadyM]

/-- C5: `initialize()` spawns the engine and writes `uci`; the `uciok` line
triggers `isready`; the promise resolves exactly on a `readyok` line (no
other line and no non-data event can resolve it); a process error or exit
during the handshake and the 15 s initialization timer each reject it, and
the timeout window constant is 15000 ms; a re-entrant call during the
handshake returns the same in-flight promise, a call while ready returns the
already-settled promise (or an immediately resolved one when the promise
variable was cleared). -/
theorem initialize_handshake_C5 :
    initializeStockfishM mgrFresh = (mgrStarted, .started, [.spawnProc, .send .uci]) ∧
    mgrStep mgrStarted (.data (lit "uciok\n")) = (mgrStarted, [.send .isready]) ∧
    mgrStep mgrStarted (.data (lit "readyok\n")) =
      ({ mgrStarted with ready := true, initSt := .resolvedOk }, []) ∧
    (∀ (m : Mgr) (chunk : List Char),
        ((feedChunk m.buf chunk).1.all fun l => trimL l != lit "readyok") = true →
        (mgrStep m (.data chunk)).1.initSt = .resolvedOk → m.initSt = .resolvedOk) ∧
    (∀ (m : Mgr) (ev : MgrEv), ev.isData = false →
        (mgrStep m ev).1.initSt = .resolvedOk → m.initSt = .resolvedOk) ∧
    (mgrStep mgrStarted .procError).1.initSt = .rejectedErr .spawnErr ∧
    (mgrStep mgrStarted .procClose).1.initSt = .rejectedErr .exitedEarly ∧
    (mgrStep mgrStarted .initTimeoutFire).1.initSt = .rejectedErr .initTimedOut ∧
    INITIALIZATION_TIMEOUT_MS = 15000 ∧
    initializeStockfishM mgrStarted = (mgrStarted, .sharedInFlight, []) ∧
    initializeStockfishM mgrReady = (mgrReady, .sharedInFlight, []) ∧
    mgrReady.initSt = .resolvedOk ∧
    initializeStockfishM mgrReadyNoVar = (mgrReadyNoVar, .immediateOk, []) := by
  refine ⟨by decide, by decide, by decide, ?_, ?_, by decide, by decide, by decide, rfl,
    by decide, by decide, by decide, by decide⟩
  · intro m chunk hall h
    have hl : ∀ l ∈ (feedChunk m.buf chunk).1, trimL l ≠ lit "readyok" := by
      intro l hlmem
      simpa [bne_iff_ne] using List.all_eq_true.mp hall l hlmem
    simp only [mgrStep, mgrData] at h
    exact foldl_initLineStep_resolved _ _ hl h
  · intro m ev hev h
    cases ev with
    | data c => simp [MgrEv.isData] at hev
    | procError =>
        simp only [mgrStep] at h
        split_ifs at h
        all_goals simp_all
    | procClose =>
        simp only [mgrStep] at h
        split_ifs at h
        all_goals simp_all
    | initTimeoutFire =>
        simp only [mgrStep] at h
        split_ifs at h
        all_goals simp_all
    | stdinError =>
        simp only [mgrStep] at h
        split_ifs at h
        all_goals simp_all
    | stdinClose =>
        simp only [mgrStep] at h
        split_ifs at h
        all_goals simp_all

/-- C5 witness: the resolve-only-on-`readyok` conjuncts instantiated on the
handshaking state with the `uciok` chunk and the `procError` event. -/
theorem initialize_handshake_C5_witness :
    (((feedChunk mgrStarted.buf (lit "uciok\n")).1.all
        fun l => trimL l != lit "readyok") = true) ∧
    ((mgrStep mgrStarted (.data (lit "uciok\n"))).1.initSt = .resolvedOk →
      mgrStarted.initSt = .resolvedOk) ∧
    (MgrEv.procError.isData = false) ∧
    ((mgrStep mgrStarted .procError).1.initSt = .resolvedOk →
      mgrStarted.initSt = .resolvedOk) :=
  ⟨by decide,
    initialize_handshake_C5.2.2.2.1 mgrStarted (lit "uciok\n") (by decide),
    by decide,
    initialize_handshake_C5.2.2.2.2.1 mgrStarted .procError (by decide)⟩

/-- C6: when the analysis request's timer fires while its conversation has
not produced a terminal `bestmove` line, the request sends `stop` to the
engine, removes its own listener, and rejects with the timeout error; no
other request's state is touched, and a concurrently pending best-move
conversation still resolves normally from its own `bestmove` line; the
request timeout constant is `ANALYSIS_TIMEOUT_MS = 30000`. -/
theorem analysis_timeout_C6 (st : ASt) :
    analysisReqStep (.inl st) .timeoutFire =
      (.inr (.error .engineTimeout), [.removeStdoutListener, .send .stop]) ∧
    (∀ b : List Char ⊕ Option String,
        pairTimeoutFirst (.inl st) b = (.inr (.error .engineTimeout), b)) ∧
    bestMoveResolve ["bestmove e2e4\n"] = some (some "e2e4") ∧
    ANALYSIS_TIMEOUT_MS = 30000 :=
  ⟨rfl, fun b => rfl, by decide, rfl⟩

/-- C7: for skill levels in [0, 20] the clamp is the identity, so
`moveTime = 100 + round(skillLevel/20 * 1000)`; the adapter writes
`position fen`, `setoption name Skill Level value`, `go movetime` in that
order, and the request timeout is `moveTime + 7000` ms. -/
theorem best_move_request_C7 (fen : String) (s : ℚ) (h0 : 0 ≤ s) (h1 : s ≤ 20) :
    moveTime s = 100 + round (s / 20 * 1000) ∧
    getStockfishMoveStart fen s =
      [.attachStdoutListener, .send (.positionFen fen), .send (.setSkill s),
        .send (.goMovetime (moveTime s))] ∧
    moveTimeout s = moveTime s + 7000 := by
  refine ⟨?_, rfl, rfl⟩
  have hdiv1 : s / 20 ≤ 1 := by
    rw [div_le_one (by norm_num : (0:ℚ) < 20)]; linarith
  have hdiv0 : (0:ℚ) ≤ s / 20 := by positivity
  unfold moveTime normalizedSkill MAX_SKILL_LEVEL BASE_MOVE_TIME_MS MAX_ADDITIONAL_TIME_MS
  rw [min_eq_right hdiv1, max_eq_right hdiv0]

/-- C7 witness: skill level 10 yields `moveTime = 600` and the claimed
command sequence. -/
theorem best_move_request_C7_witness :
    (0:ℚ) ≤ 10 ∧ (10:ℚ) ≤ 20 ∧
      (moveTime 10 = 100 + round ((10:ℚ) / 20 * 1000) ∧
        getStockfishMoveStart "8/8/8/8/8/8/6k1/5R1K w - - 0 1" 10 =
          [.attachStdoutListener,
            .send (.positionFen "8/8/8/8/8/8/6k1/5R1K w - - 0 1"),
            .send (.setSkill 10), .send (.goMovetime (moveTime 10))] ∧
        moveTimeout 10 = moveTime 10 + 7000) :=
  ⟨by norm_num, by norm_num,
    best_move_request_C7 "8/8/8/8/8/8/6k1/5R1K w - - 0 1" 10 (by norm_num) (by norm_num)⟩

/-- C8 (amended): the best-move handler resolves on the first `bestmove`
line of its conversation with that line's move token, and it yields an
empty result exactly when the token is missing, empty, or the engine's
literal `(none)` marker. -/
theorem best_move_resolution_C8 :
    (∀ ls : List (List Char),
        bestMoveLines ls =
          (ls.find? fun l => startsWithL (lit "bestmove") l).map
            fun l => parseBestTok (tok1 l)) ∧
    (∀ t : Option String,
        parseBestTok t = none ↔ t = none ∨ t = some "" ∨ t = some "(none)") ∧
    bestMoveResolve ["bestmove (none)\n"] = some none ∧
    bestMoveResolve ["info depth 1 seldepth 1\n", "bestmove e2e4 ponder e7e5\n"] =
      some (some "e2e4") :=
  ⟨bestMoveLines_eq_find, parseBestTok_eq_none_iff, by decide, by decide⟩

/-- C8 counterexample: on the line `bestmove none` the token is the literal
`none`, yet the handler resolves with the move `"none"` rather than the
empty result — the code's no-move marker is `"(none)"`, not `none`. -/
theorem best_move_resolution_C8_counterexample :
    tok1 (lit "bestmove none") = some "none" ∧
    bestMoveResolve ["bestmove none\n"] = some (some "none") ∧
    ¬ (parseBestTok (some "none") = none ↔ (some "none" : Option String) = some "none") := by
  refine ⟨by decide, by decide, by decide⟩

/-- C9: `shutdown()` on a never-started or crashed manager resolves
immediately with no engine interaction; on a live engine it removes the
stdout listeners and writes `quit` without resolving yet; a process exit
within the grace period nulls the state and resolves; if the 2000 ms grace
period elapses first, the process is forcibly killed and the promise
resolves. -/
theorem shutdown_C9 :
    shutdownStockfishM mgrFresh = (mgrFresh, [], true) ∧
    shutdownStockfishM mgrCrashed = (mgrCrashed, [], true) ∧
    shutdownStockfishM mgrReady = (mgrReady, [.removeStdoutListener, .send .quit], false) ∧
    shutdownOnClose mgrReady = (⟨false, false, false, [], false, .resolvedOk⟩, true) ∧
    shutdownOnGrace mgrReady = (⟨false, true, false, [], false, .resolvedOk⟩, [.killProc], true) ∧
    SHUTDOWN_GRACE_MS = 2000 := by
  refine ⟨by decide, by decide, by decide, by decide, by decide, rfl⟩

/-- C10: for every rational skill input — including values outside
[0, 20] — the normalized skill is clamped to [0, 1], so the computed
`moveTime` lies in [100, 1100] ms. -/
theorem skill_clamp_C10 (s : ℚ) :
    (0 ≤ normalizedSkill s ∧ normalizedSkill s ≤ 1) ∧
    100 ≤ moveTime s ∧ moveTime s ≤ 1100 := by
  have h0 : 0 ≤ normalizedSkill s := le_max_left 0 _
  have h1 : normalizedSkill s ≤ 1 := max_le (by norm_num) (min_le_left 1 _)
  have hm0 : (0:ℚ) ≤ normalizedSkill s * 1000 :=
    mul_nonneg h0 (by norm_num)
  have hm1 : normalizedSkill s * 1000 ≤ 1000 := by nlinarith
  refine ⟨⟨h0, h1⟩, ?_, ?_⟩
  · have hr : (0:ℤ) ≤ round (normalizedSkill s * MAX_ADDITIONAL_TIME_MS) := by
      rw [round_eq]
      refine Int.floor_nonneg.mpr ?_
      unfold MAX_ADDITIONAL_TIME_MS
      linarith
    unfold moveTime BASE_MOVE_TIME_MS
    omega
  · have hr : round (normalizedSkill s * MAX_ADDITIONAL_TIME_MS) ≤ 1000 := by
      rw [round_eq]
      have hle : normalizedSkill s * MAX_ADDITIONAL_TIME_MS + 1 / 2 ≤ (2001:ℚ) / 2 := by
        unfold MAX_ADDITIONAL_TIME_MS
        linarith
      calc ⌊normalizedSkill s * MAX_ADDITIONAL_TIME_MS + 1 / 2⌋
          ≤ ⌊(2001:ℚ) / 2⌋ := Int.floor_mono hle
        _ = 1000 := by norm_num
    unfold moveTime BASE_MOVE_TIME_MS
    omega
